import Mathlib

/-!
Verification of the acquire-zarr streaming engine against its specification.

The definitions below are shallow embeddings of the C++ sources
`src/streaming/zarr.stream.cpp` and `src/streaming/sink.cpp`.  Pixels of the
integral element types are embedded as `Int`; the `double` accumulator used by
the downsampler is exact on these values (for element types up to 32 bits), so
`0.25 * sum` truncated toward zero is embedded as `Int.tdiv sum 4`, and
`0.5 * (a + b)` truncated toward zero as `Int.tdiv (a + b) 2`.  Byte contents
are embedded as `Nat` (they are never interpreted by the code under study).
-/

namespace AcquireZarr

/-! ## Error latching (`ZarrStream_s::set_error_`) -/

/-- `ZarrStream_s::set_error_`: the body is the plain assignment
`error_ = msg;` — the new message replaces whatever was stored before. -/
def set_error (_error_ : String) (msg : String) : String := msg

/-- A sequence of error reports arriving at the stream (each thread-pool
error callback invocation runs `set_error_`), folded over the stream's
`error_` member starting from `init`. -/
def report_errors (init : String) (msgs : List String) : String :=
  msgs.foldl set_error init

/-! ## Downsampler (`scale_image<T>`, `average_two_frames<T>`) -/

/-- Pixel lookup in a row-major image of width `w`. -/
def pix (src : List Int) (w r c : Nat) : Int :=
  src.getD (r * w + c) 0

/-- `scale_image<T>`: 2×2 box downsample with replication padding on the last
row/column when the extent is odd.  The C++ loops `for (row = 0; row < height;
row += 2)` / `for (col = 0; col < width; col += 2)` are written as maps over
`row = 2*r`, `r < h_pad/2` (identical ranges), writing `dst_idx` sequentially.
Returns the destination image together with the updated width and height
(the function's in/out reference parameters). -/
def scale_image (src : List Int) (width height : Nat) : List Int × Nat × Nat :=
  let w_pad := width + width % 2
  let h_pad := height + height % 2
  let dst :=
    (List.range (h_pad / 2)).flatMap (fun r =>
      (List.range (w_pad / 2)).map (fun c =>
        let row := 2 * r
        let col := 2 * c
        -- `1 - static_cast<int>(pad_height)` and `1 - static_cast<int>(pad_width)`
        let dh : Nat := if row = height - 1 ∧ height % 2 = 1 then 0 else 1
        let dw : Nat := if col = width - 1 ∧ width % 2 = 1 then 0 else 1
        let here := src.getD (row * width + col) 0
        let right := src.getD (row * width + col + dw) 0
        let down := src.getD (row * width + col + width * dh) 0
        let diag := src.getD (row * width + col + width * dh + dw) 0
        Int.tdiv (here + right + down + diag) 4))
  (dst, w_pad / 2, h_pad / 2)

/-- `average_two_frames<T>`: elementwise `dst[i] = T(0.5 * (dst[i] + src[i]))`.
The sizes of the two frames are equal at every call site (asserted by
`EXPECT` in the source); `zipWith` agrees with the loop in that case. -/
def average_two_frames (dst src : List Int) : List Int :=
  List.zipWith (fun a b => Int.tdiv (a + b) 2) dst src

/-- The loop of `ZarrStream_s::write_multiscale_frames_` over writer levels
`i = 1, …, writers_.size() - 1`, given here as the list `levels` of remaining
indices.  `scaled` is `scaled_frames_`, `written` collects the `(level, frame)`
pairs submitted to `writers_[i]->write_frame`.  Note the aliasing in the
source: `average_two_frames` writes the average into `dst` in place, and
`data = dst` then forwards that (averaged) buffer to the next level. -/
def write_multiscale_loop :
    List Nat → List Int → Nat → Nat → (Nat → Option (List Int)) →
      List (Nat × List Int) → (Nat → Option (List Int)) × List (Nat × List Int)
  | [], _, _, _, scaled, written => (scaled, written)
  | i :: rest, data, w, h, scaled, written =>
    let res := scale_image data w h
    let dst := res.1
    let w2 := res.2.1
    let h2 := res.2.2
    match scaled i with
    | some g =>
      let avg := average_two_frames dst g
      let scaled2 : Nat → Option (List Int) := fun j => if j = i then none else scaled j
      let written2 := written ++ [(i, avg)]
      match rest with
      | [] => (scaled2, written2)
      | _ :: _ => write_multiscale_loop rest avg w2 h2 scaled2 written2
    | none => (fun j => if j = i then some dst else scaled j, written)

/-- `ZarrStream_s::write_multiscale_frames_`: no-op unless `multiscale_`;
otherwise runs the cascade over levels `1, …, numWriters - 1`. -/
def write_multiscale_frames (multiscale : Bool) (numWriters : Nat) (data : List Int)
    (frameWidth frameHeight : Nat) (scaled : Nat → Option (List Int)) :
    (Nat → Option (List Int)) × List (Nat × List Int) :=
  if multiscale then
    write_multiscale_loop ((List.range numWriters).drop 1) data frameWidth frameHeight
      scaled []
  else (scaled, [])

/-! ## Custom metadata (`ZarrStream_s::write_custom_metadata`) -/

inductive ZarrStatusCode where
  | Success
  | InvalidArgument
  | WillNotOverwrite
  | IOError
  | InternalError
deriving DecidableEq, Repr

/-- `validate_custom_metadata`: reject the empty string, then reject anything
the JSON parser discards.  `parseOk` stands for the external `nlohmann::json`
parser succeeding on the input. -/
def validate_custom_metadata (parseOk : String → Bool) (metadata : String) : Bool :=
  if metadata.isEmpty then false
  else parseOk metadata

/-- The `metadata_sinks_` map restricted to the key `"acquire.json"`:
`none` means the sink has not been created (the key is absent — the maps
created at stream construction never contain it), `some c` means the sink
exists and holds content `c`. -/
structure MetadataSinks where
  acquireJson : Option String
deriving DecidableEq, Repr

/-- `ZarrStream_s::write_custom_metadata`.  `dump` stands for the external
re-serialisation `nlohmann::json::parse(m).dump(4)`; sink creation and sink
writes succeed (the file/S3 sink internals are external interfaces). -/
def write_custom_metadata (parseOk : String → Bool) (dump : String → String)
    (st : MetadataSinks) (custom_metadata : String) (overwrite : Bool) :
    MetadataSinks × ZarrStatusCode :=
  if !validate_custom_metadata parseOk custom_metadata then
    (st, ZarrStatusCode.InvalidArgument)
  else if st.acquireJson.isNone then
    -- create the sink, then fall through to the common write
    ({ acquireJson := some (dump custom_metadata) }, ZarrStatusCode.Success)
  else if !overwrite then
    (st, ZarrStatusCode.WillNotOverwrite)
  else
    ({ acquireJson := some (dump custom_metadata) }, ZarrStatusCode.Success)

/-! ## OME multiscales metadata (`ZarrStream_s::make_ome_metadata_`) -/

/-- The scale vector pushed for dataset `i ≥ 1`: `2^i` for the append
dimension, `1.` for each of the `ndims - 3` middle dimensions, then `2^i`
for y and `2^i` for x.  `std::pow(2, i)` is exact, embedded as `2 ^ i`. -/
def ome_scale_vector (ndims : Nat) (i : Nat) : List Nat :=
  2 ^ i :: (((List.range (ndims - 3)).map fun _ => 1) ++ [2 ^ i, 2 ^ i])

/-- The `scale` vectors of `multiscales[0]["datasets"]`, in order: the level-0
entry `std::vector<double>(ndims, 1.0)` followed by one entry per additional
writer `i = 1, …, numWriters - 1`. -/
def ome_dataset_scales (ndims numWriters : Nat) : List (List Nat) :=
  ((List.range ndims).map fun _ => 1) ::
    (List.range (numWriters - 1)).map (fun j => ome_scale_vector ndims (j + 1))

/-! ## Settings validation (`validate_dimension`, `ZarrStream_s::validate_settings_`) -/

/-- Enum sizes and values from `acquire.zarr.h` (the public header is not part
of the sources under study; values modelled from the spec §3/§6: dimension
types {time, channel, space, other}, versions {2, 3}, ten data types, Blosc
shuffle constants 0/1/2, compressors {none, blosc}, codecs {none, lz4, zstd}). -/
def ZarrDimensionTypeCount : Nat := 4

def ZarrDimensionType_Space : Nat := 2

def ZarrVersion_2 : Nat := 2

def ZarrVersionCount : Nat := 4

def ZarrDataTypeCount : Nat := 10

def ZarrCompressorCount : Nat := 2

def ZarrCompressionCodecCount : Nat := 3

def ZarrCompressor_None : Nat := 0

def ZarrCompressionCodec_None : Nat := 0

def BLOSC_NOSHUFFLE : Nat := 0

def BLOSC_SHUFFLE : Nat := 1

def BLOSC_BITSHUFFLE : Nat := 2

structure ZarrDimensionProperties where
  name : String
  type : Nat
  array_size_px : Nat
  chunk_size_px : Nat
  shard_size_chunks : Nat
deriving DecidableEq, Repr, Inhabited

/-- `validate_dimension` from `zarr.stream.cpp`. -/
def validate_dimension (d : ZarrDimensionProperties) (version : Nat)
    (is_append : Bool) : Bool :=
  if d.name.isEmpty then false
  else if ZarrDimensionTypeCount ≤ d.type then false
  else if ¬is_append ∧ d.array_size_px = 0 then false
  else if d.chunk_size_px = 0 then false
  else if version = 3 ∧ d.shard_size_chunks = 0 then false
  else true

structure ZarrS3Settings where
  endpoint : String
  bucket_name : String
deriving DecidableEq, Repr

/-- `validate_s3_settings` (the `region` field is optional and unchecked). -/
def validate_s3_settings (s : ZarrS3Settings) : Bool :=
  if s.endpoint.trim.isEmpty then false
  else if s.bucket_name.trim.length < 3 ∨ 63 < s.bucket_name.trim.length then false
  else true

structure ZarrCompressionSettings where
  compressor : Nat
  codec : Nat
  level : Nat
  shuffle : Nat
deriving DecidableEq, Repr

/-- `validate_compression_settings`. -/
def validate_compression_settings (c : ZarrCompressionSettings) : Bool :=
  if ZarrCompressorCount ≤ c.compressor then false
  else if ZarrCompressionCodecCount ≤ c.codec then false
  else if c.compressor ≠ ZarrCompressor_None ∧ c.codec = ZarrCompressionCodec_None then false
  else if 9 < c.level then false
  else if c.shuffle ≠ BLOSC_NOSHUFFLE ∧ c.shuffle ≠ BLOSC_SHUFFLE ∧
      c.shuffle ≠ BLOSC_BITSHUFFLE then false
  else true

/-- `ZarrStreamSettings_s`: the null-pointer fields of the C struct are
embedded as `Option`/`List` (a null `dimensions` pointer is the empty list,
which fails the `ndims < 3` check exactly as the null check would). -/
structure ZarrStreamSettings where
  version : Nat
  store_path : String
  s3_settings : Option ZarrS3Settings
  compression_settings : Option ZarrCompressionSettings
  data_type : Nat
  dimensions : List ZarrDimensionProperties
  multiscale : Bool
deriving DecidableEq, Repr

/-- `ZarrStream_s::validate_settings_`.  `fsPathOk` stands for the external
filesystem probe `validate_filesystem_store_path` (parent directory exists,
is a directory, and is writable). -/
def validate_settings (fsPathOk : String → Bool) (s : ZarrStreamSettings) : Bool :=
  if s.version < ZarrVersion_2 ∨ ZarrVersionCount ≤ s.version then false
  else if s.store_path.isEmpty then false
  else if !(match s.s3_settings with
            | some s3 => validate_s3_settings s3
            | none => fsPathOk s.store_path) then false
  else if ZarrDataTypeCount ≤ s.data_type then false
  else if !(match s.compression_settings with
            | some c => validate_compression_settings c
            | none => true) then false
  else if s.dimensions.length < 3 then false
  else if (s.dimensions.getD (s.dimensions.length - 1) default).type ≠
      ZarrDimensionType_Space then false
  else if (s.dimensions.getD (s.dimensions.length - 2) default).type ≠
      ZarrDimensionType_Space then false
  else
    (List.range s.dimensions.length).all fun i =>
      validate_dimension (s.dimensions.getD i default) s.version (i = 0)

/-! ## Store creation (`ZarrStream_s::create_store_`, filesystem branch) -/

/-- An abstract filesystem: the list of existing entries (files and
directories), identified by their full paths. -/
structure FileSystem where
  entries : List String
deriving DecidableEq, Repr

/-- `p` lies in the subtree rooted at `root` (it is `root` itself or a
descendant path). -/
def path_is_under (root p : String) : Bool :=
  p = root || (root ++ "/").data.isPrefixOf p.data

/-- `fs::exists`. -/
def fs_exists (fs : FileSystem) (p : String) : Bool :=
  fs.entries.contains p

/-- `fs::remove_all`: removes `p` and everything beneath it. -/
def fs_remove_all (fs : FileSystem) (root : String) : FileSystem :=
  ⟨fs.entries.filter fun p => !path_is_under root p⟩

/-- `fs::create_directories` (modelled as creating the named entry; the
intermediate parents are irrelevant to the claims below). -/
def fs_create_directories (fs : FileSystem) (p : String) : FileSystem :=
  ⟨fs.entries ++ [p]⟩

/-- The non-S3 branch of `ZarrStream_s::create_store_`, with the filesystem
primitives succeeding (their error paths set `error_` and return `false`).
Returns the new filesystem state and the function's boolean result. -/
def create_store (fs : FileSystem) (store_path : String) : FileSystem × Bool :=
  let fs1 := if fs_exists fs store_path then fs_remove_all fs store_path else fs
  (fs_create_directories fs1 store_path, true)

/-! ## Data paths (`zarr::construct_data_paths`) -/

/-- One path component appended during the intermediate loop:
`path + (path.empty() ? kstr : "/" + kstr)`. -/
def path_push (p : String) (k : Nat) : String :=
  p ++ (if p = "" then toString k else "/" ++ toString k)

/-- One round of the queue expansion in `construct_data_paths`: every queued
path is popped and replaced by its `n_parts` children, in order. -/
def expand_dim (n_parts : Nat) (paths : List String) : List String :=
  paths.flatMap fun p => (List.range n_parts).map (path_push p)

/-- `zarr::construct_data_paths`.  The intermediate loop runs over dimensions
`1, …, ndims - 2` (`dims.drop 1 |>.dropLast`); the final block runs over
`width_dim` (the last dimension), always joining with `"/"`. -/
def construct_data_paths {α : Type} (base_path : String) (dims : List α)
    (parts_along_dimension : α → Nat) : List String :=
  let inter := ((dims.drop 1).dropLast).foldl
    (fun paths d => expand_dim (parts_along_dimension d) paths) [base_path]
  match dims.getLast? with
  | none => []
  | some wd =>
    inter.flatMap fun p =>
      (List.range (parts_along_dimension wd)).map fun j => p ++ "/" ++ toString j

/-- Specification-side enumeration: all index tuples over the given radices in
row-major order (first radix slowest, last radix fastest). -/
def row_major_tuples : List Nat → List (List Nat)
  | [] => [[]]
  | r :: rs => (List.range r).flatMap fun k => (row_major_tuples rs).map (k :: ·)

/-- Specification-side rendering: `base/i₁/i₂/…/iₖ`. -/
def render_path (base : String) (t : List Nat) : String :=
  t.foldl (fun p k => p ++ "/" ++ toString k) base

/-! ## Frame re-assembly (`ZarrStream::append`, `ZarrStream_s::write_frame_`) -/

/-- The orchestrator state relevant to `append`: the frame buffer (modelled by
its first `frame_buffer_offset_` bytes), the frames accepted by writer 0 (the
produced store contents), a counter of `write_frame_` invocations (used by the
failure oracle), and the latched `error_` string. -/
structure StreamState where
  frameSize : Nat
  buffer : List Nat
  frames : List (List Nat)
  framesAttempted : Nat
  error_ : String
deriving DecidableEq, Repr

/-- `ZarrStream_s::write_frame_`: the frame goes to `writers_[0]`, whose
`write_frame` returns the full byte count on success and a short count on
failure (§4.5 of the spec: a failed flush makes the writer's next
`write_frame` return 0).  A short count latches `error_` and is returned to
`append`, which treats it as fatal.  `failAt n` says whether the `n`-th
`write_frame_` invocation fails. -/
def write_frame (failAt : Nat → Bool) (s : StreamState) (frame : List Nat) :
    StreamState × Nat :=
  if failAt s.framesAttempted then
    ({ s with framesAttempted := s.framesAttempted + 1,
              error_ := "Incomplete write to full-resolution array." }, 0)
  else
    ({ s with framesAttempted := s.framesAttempted + 1,
              frames := s.frames ++ [frame] }, s.frameSize)

/-- The `while (bytes_written < nbytes)` loop of `ZarrStream::append`.  Each
iteration consumes at least one input byte, so the loop runs at most
`input.length` times; `fuel` counts the remaining permitted iterations and is
never exhausted when the caller supplies `input.length + 1` (the `(s, 0)`
returns on exhausted fuel and on a stuck `toCopy = 0` — possible only if the
buffer invariant `buffer.length < frameSize` were violated — are unreachable
from `append`).  Returns the final state and `bytes_written`. -/
def append_loop (failAt : Nat → Bool) : Nat → StreamState → List Nat → StreamState × Nat
  | 0, s, _ => (s, 0)
  | fuel + 1, s, input =>
    if input = [] then (s, 0)
    else if s.buffer ≠ [] then
      -- add to / finish a partial frame
      let toCopy := min (s.frameSize - s.buffer.length) input.length
      if toCopy = 0 then (s, 0)
      else
        let buf := s.buffer ++ input.take toCopy
        if buf.length = s.frameSize then
          let ws := write_frame failAt s buf
          if ws.2 < s.frameSize then ({ ws.1 with buffer := buf }, toCopy)
          else
            let rest := append_loop failAt fuel { ws.1 with buffer := [] } (input.drop toCopy)
            (rest.1, toCopy + rest.2)
        else
          let rest := append_loop failAt fuel { s with buffer := buf } (input.drop toCopy)
          (rest.1, toCopy + rest.2)
    else if input.length < s.frameSize then
      -- begin a partial frame
      ({ s with buffer := input }, input.length)
    else
      -- at least one full frame, written directly from the input
      let ws := write_frame failAt s (input.take s.frameSize)
      if ws.2 < s.frameSize then (ws.1, 0)
      else
        let rest := append_loop failAt fuel ws.1 (input.drop s.frameSize)
        (rest.1, s.frameSize + rest.2)

/-- `ZarrStream::append`.  The entry guard `EXPECT(error_.empty(), …)` is
modelled from the spec (§4.8): after a fatal error, subsequent calls return 0
without side effects. -/
def append (failAt : Nat → Bool) (s : StreamState) (input : List Nat) :
    StreamState × Nat :=
  if s.error_ ≠ "" then (s, 0)
  else if input.length = 0 then (s, 0)
  else append_loop failAt (input.length + 1) s input

/-- The failure oracle of an error-free run: no `write_frame_` call fails. -/
def no_fail : Nat → Bool := fun _ => false

/-- A freshly created stream: empty frame buffer, no frames written, no
error. -/
def fresh_stream (frameSize : Nat) : StreamState :=
  { frameSize := frameSize, buffer := [], frames := [], framesAttempted := 0,
    error_ := "" }

/-- Calling `append` once per piece, left to right, summing the returned byte
counts. -/
def append_many (failAt : Nat → Bool) (s : StreamState) (pieces : List (List Nat)) :
    StreamState × Nat :=
  match pieces with
  | [] => (s, 0)
  | x :: xs =>
    let r1 := append failAt s x
    let r2 := append_many failAt r1.1 xs
    (r2.1, r1.2 + r2.2)

/-- Greedy decomposition of a byte sequence into complete frames of size `fs`
plus a remainder shorter than `fs` (the reference semantics of frame
re-assembly). -/
def chunks_tail (fs : Nat) (l : List Nat) : List (List Nat) × List Nat :=
  if fs = 0 ∨ l.length < fs then ([], l)
  else
    let r := chunks_tail fs (l.drop fs)
    (l.take fs :: r.1, r.2)
termination_by l.length
decreasing_by
  simp only [List.length_drop]
  omega

/-! ## Helper lemmas -/

theorem getD_map_range {α : Type} (f : Nat → α) (n j : Nat) (d : α) (hj : j < n) :
    ((List.range n).map f).getD j d = f j := by
  simp [List.getD, List.getElem?_map, List.getElem?_range, hj]

theorem map_one_eq_replicate (n : Nat) :
    ((List.range n).map fun _ => (1 : Nat)) = List.replicate n 1 := by
  induction n with
  | zero => rfl
  | succ n ih => rw [List.range_succ, List.map_append, ih, List.replicate_succ']; rfl

theorem length_flatMap_range {α : Type} (f : Nat → Nat → α) (n m : Nat) :
    ((List.range n).flatMap fun i => (List.range m).map (f i)).length = n * m := by
  induction n with
  | zero => simp
  | succ n ih =>
    rw [List.range_succ, List.flatMap_append, List.length_append, ih]
    simp [Nat.succ_mul]

theorem getD_flatMap_range {α : Type} (f : Nat → Nat → α) (n m r c : Nat) (d : α)
    (hr : r < n) (hc : c < m) :
    ((List.range n).flatMap fun i => (List.range m).map (f i)).getD (r * m + c) d
      = f r c := by
  induction n with
  | zero => omega
  | succ n ih =>
    rw [List.range_succ, List.flatMap_append]
    rcases Nat.lt_or_ge r n with hrn | hrn
    · rw [List.getD_append]
      · exact ih hrn
      · rw [length_flatMap_range]
        calc r * m + c < r * m + m := by omega
          _ = (r + 1) * m := by ring
          _ ≤ n * m := Nat.mul_le_mul_right m (by omega)
    · have hr' : r = n := by omega
      subst hr'
      rw [List.getD_append_right]
      · rw [length_flatMap_range]
        simp only [List.flatMap_cons, List.flatMap_nil, List.append_nil]
        have : r * m + c - r * m = c := by omega
        rw [this]
        exact getD_map_range (f r) m c d hc
      · rw [length_flatMap_range]; omega

theorem flatMap_congr_mem {α β : Type} (l : List α) (f g : α → List β)
    (h : ∀ a ∈ l, f a = g a) : l.flatMap f = l.flatMap g := by
  induction l with
  | nil => rfl
  | cons a l ih =>
    simp only [List.flatMap_cons]
    rw [h a (by simp), ih fun b hb => h b (by simp [hb])]

theorem length_flatMap_const {α β : Type} (l : List α) (f : α → List β) (m : Nat)
    (h : ∀ a ∈ l, (f a).length = m) : (l.flatMap f).length = l.length * m := by
  induction l with
  | nil => simp
  | cons a l ih =>
    simp only [List.flatMap_cons, List.length_append, List.length_cons]
    rw [h a (by simp), ih fun b hb => h b (by simp [hb]), Nat.succ_mul]
    omega

theorem length_row_major_tuples (rs : List Nat) :
    (row_major_tuples rs).length = rs.prod := by
  induction rs with
  | nil => rfl
  | cons r rs ih =>
    rw [row_major_tuples, List.prod_cons,
      length_flatMap_const _ _ (row_major_tuples rs).length
        (fun k _ => List.length_map _ _),
      List.length_range, ih]

theorem flatMap_pure_map {α β : Type} (l : List α) (g : α → β) :
    (l.flatMap fun x => [g x]) = l.map g := by
  induction l with
  | nil => rfl
  | cons a l ih => simp [List.flatMap_cons, ih]

theorem row_major_tuples_snoc (rs : List Nat) (n : Nat) :
    row_major_tuples (rs ++ [n])
      = (row_major_tuples rs).flatMap fun t => (List.range n).map (fun j => t ++ [j]) := by
  induction rs with
  | nil =>
    simp only [List.nil_append, row_major_tuples, List.flatMap_singleton,
      List.map_cons, List.map_nil]
    exact flatMap_pure_map _ _
  | cons r rs ih =>
    rw [List.cons_append, row_major_tuples, ih, row_major_tuples, List.flatMap_assoc]
    apply flatMap_congr_mem
    intro k _
    rw [List.map_flatMap, List.flatMap_map]
    apply flatMap_congr_mem
    intro t _
    simp [List.map_map, Function.comp]

theorem append_slash_ne_empty (p t : String) : p ++ "/" ++ t ≠ "" := by
  intro hcontra
  have hlen := congrArg String.length hcontra
  simp only [String.length_append] at hlen
  have h1 : ("/" : String).length = 1 := rfl
  have h2 : ("" : String).length = 0 := rfl
  omega

theorem path_push_of_ne_empty (p : String) (k : Nat) (hp : p ≠ "") :
    path_push p k = p ++ "/" ++ toString k := by
  rw [path_push, if_neg hp, String.append_assoc]

theorem foldl_expand_eq {α : Type} (parts : α → Nat) (mids : List α)
    (paths : List String) (hne : ∀ p ∈ paths, p ≠ "") :
    mids.foldl (fun ps d => expand_dim (parts d) ps) paths
      = paths.flatMap fun p =>
          (row_major_tuples (mids.map parts)).map
            (fun t => t.foldl (fun q k => q ++ "/" ++ toString k) p) := by
  induction mids generalizing paths with
  | nil => simp [row_major_tuples]
  | cons d mids ih =>
    have hne2 : ∀ p ∈ expand_dim (parts d) paths, p ≠ "" := by
      intro p hp
      rw [expand_dim] at hp
      rcases List.mem_flatMap.mp hp with ⟨q, hq, hpq⟩
      rcases List.mem_map.mp hpq with ⟨k, _, hk⟩
      rw [← hk, path_push_of_ne_empty q k (hne q hq)]
      exact append_slash_ne_empty _ _
    rw [List.foldl_cons, ih (expand_dim (parts d) paths) hne2]
    rw [expand_dim, List.flatMap_assoc]
    apply flatMap_congr_mem
    intro p hp
    simp only [List.map_cons, row_major_tuples, List.map_flatMap, List.flatMap_map,
      List.map_map]
    apply flatMap_congr_mem
    intro k _
    rw [path_push_of_ne_empty p k (hne p hp)]
    apply List.map_congr_left
    intro t _
    simp [Function.comp]

/-! ## C10 — data path enumeration -/

/-- C10: for `n ≥ 3` dimensions and positive per-dimension parts counts,
`construct_data_paths` returns exactly one path per index tuple over
dimensions `1..n-1` (the append dimension is excluded), in row-major order
(dimension 1 slowest, the width dimension fastest), each path being the base
path followed by one `/index` component per dimension; in particular the
number of paths equals the product of the parts counts of dimensions
`1..n-1`. -/
theorem construct_data_paths_spec {α : Type} (base : String) (dims : List α)
    (parts : α → Nat) (hb : base ≠ "") (hd : 3 ≤ dims.length)
    (hp : ∀ d ∈ dims, 0 < parts d) :
    construct_data_paths base dims parts
      = (row_major_tuples ((dims.drop 1).map parts)).map (render_path base) ∧
    (construct_data_paths base dims parts).length
      = ((dims.drop 1).map parts).prod := by
  rcases dims with _ | ⟨d0, tl⟩
  · simp at hd
  have htl : tl ≠ [] := by
    intro hcontra
    subst hcontra
    simp at hd
  have hmain : construct_data_paths base (d0 :: tl) parts
      = (row_major_tuples (((d0 :: tl).drop 1).map parts)).map (render_path base) := by
    have hlast : (d0 :: tl).getLast? = some (tl.getLast htl) := by
      rw [List.getLast?_eq_getLast _ (List.cons_ne_nil d0 tl), List.getLast_cons htl]
    simp only [construct_data_paths, hlast, List.drop_succ_cons, List.drop_zero,
      List.dropLast_cons_of_ne_nil htl]
    rw [foldl_expand_eq parts tl.dropLast [base]
      (by intro p hp'; rw [List.mem_singleton] at hp'; subst hp'; exact hb)]
    simp only [List.flatMap_cons, List.flatMap_nil, List.append_nil]
    conv_rhs => rw [← List.dropLast_append_getLast htl]
    rw [List.map_append, List.map_singleton, row_major_tuples_snoc]
    simp only [List.map_flatMap, List.flatMap_map, List.map_map]
    apply flatMap_congr_mem
    intro t _
    apply List.map_congr_left
    intro j _
    simp [Function.comp, render_path, List.foldl_append]
  refine ⟨hmain, ?_⟩
  rw [hmain, List.length_map, length_row_major_tuples]

theorem construct_data_paths_spec_witness :
    ("b" : String) ≠ "" ∧ (∀ d ∈ ([10, 2, 3] : List Nat), 0 < d) ∧
      construct_data_paths "b" [10, 2, 3] (fun n => n)
        = (row_major_tuples ((([10, 2, 3] : List Nat).drop 1).map (fun n => n))).map
            (render_path "b") :=
  ⟨by decide, by decide,
    (construct_data_paths_spec "b" [10, 2, 3] (fun n => n) (by decide) (by decide)
      (by decide)).1⟩

/-! ## C3 — error latching -/

/-- C3 (counterexample): after two error reports, the latched error is the
second one, not the first: `set_error_` overwrites unconditionally. -/
theorem report_errors_keeps_last_counterexample :
    report_errors "" ["first error", "second error"] = "second error" ∧
      report_errors "" ["first error", "second error"] ≠ "first error" := by
  constructor
  · rfl
  · decide

/-- C3 (amended): the stream's latched error equals the most recent error
reported; each report overwrites the previous one. -/
theorem report_errors_eq_last (init : String) (msgs : List String) (h : msgs ≠ []) :
    report_errors init msgs = msgs.getLast h := by
  induction msgs generalizing init with
  | nil => exact absurd rfl h
  | cons m tl ih =>
    cases tl with
    | nil => rfl
    | cons m2 tl2 =>
      rw [report_errors] at *
      rw [List.foldl_cons, List.getLast_cons (by simp)]
      exact ih (set_error init m) (by simp)

theorem report_errors_eq_last_witness :
    (["first error", "second error"] : List String) ≠ [] ∧
      report_errors "boot" ["first error", "second error"]
        = (["first error", "second error"] : List String).getLast (by decide) :=
  ⟨by decide, report_errors_eq_last "boot" ["first error", "second error"] (by decide)⟩

/-! ## C5 — spatial 2×2 downsample -/

/-- C5: on an `H×W` image the downsample yields `⌈W/2⌉ × ⌈H/2⌉`, and output
pixel `(r, c)` is the truncated-toward-zero quarter of the sum of the 2×2
block at `(2r, 2c)`, with the last row/column replicated (index clamped to
`h - 1` / `w - 1`) when the extent is odd. -/
theorem scale_image_spec (src : List Int) (w h : Nat) (hw : 0 < w) (hh : 0 < h) :
    (scale_image src w h).2.1 = (w + 1) / 2 ∧
    (scale_image src w h).2.2 = (h + 1) / 2 ∧
    (scale_image src w h).1.length = ((h + 1) / 2) * ((w + 1) / 2) ∧
    (∀ r c, r < (h + 1) / 2 → c < (w + 1) / 2 →
      (scale_image src w h).1.getD (r * ((w + 1) / 2) + c) 0 =
        Int.tdiv (pix src w (2 * r) (2 * c)
          + pix src w (2 * r) (min (2 * c + 1) (w - 1))
          + pix src w (min (2 * r + 1) (h - 1)) (2 * c)
          + pix src w (min (2 * r + 1) (h - 1)) (min (2 * c + 1) (w - 1))) 4) := by
  have hw2 : (w + w % 2) / 2 = (w + 1) / 2 := by omega
  have hh2 : (h + h % 2) / 2 = (h + 1) / 2 := by omega
  refine ⟨by simp only [scale_image]; omega, by simp only [scale_image]; omega, ?_, ?_⟩
  · have hlen : (scale_image src w h).1.length = ((h + h % 2) / 2) * ((w + w % 2) / 2) := by
      simp only [scale_image]
      exact length_flatMap_range _ _ _
    rw [hlen, hw2, hh2]
  · intro r c hr hc
    have hr' : r < (h + h % 2) / 2 := by omega
    have hc' : c < (w + w % 2) / 2 := by omega
    have hcol : 2 * c ≤ w - 1 := by omega
    have hrow : 2 * r ≤ h - 1 := by omega
    have hidx : r * ((w + 1) / 2) + c = r * ((w + w % 2) / 2) + c := by rw [hw2]
    rw [hidx]
    simp only [scale_image]
    rw [getD_flatMap_range _ _ _ _ _ _ hr' hc']
    simp only [pix]
    split_ifs with h1 h2 h2
    · -- last column replicated, last row replicated
      rw [show min (2 * c + 1) (w - 1) = 2 * c from by omega,
        show min (2 * r + 1) (h - 1) = 2 * r from by omega]
      ring_nf
    · -- last column replicated only
      rw [show min (2 * c + 1) (w - 1) = 2 * c from by omega,
        show min (2 * r + 1) (h - 1) = 2 * r + 1 from by omega]
      ring_nf
    · -- last row replicated only
      rw [show min (2 * c + 1) (w - 1) = 2 * c + 1 from by omega,
        show min (2 * r + 1) (h - 1) = 2 * r from by omega]
      ring_nf
    · -- interior pixel
      rw [show min (2 * c + 1) (w - 1) = 2 * c + 1 from by omega,
        show min (2 * r + 1) (h - 1) = 2 * r + 1 from by omega]
      ring_nf

theorem scale_image_spec_witness :
    0 < 3 ∧ 0 < 2 ∧
      (scale_image [1, 2, 3, 4, 5, 6] 3 2).1.getD (0 * ((3 + 1) / 2) + 1) 0 =
        Int.tdiv (pix [1, 2, 3, 4, 5, 6] 3 (2 * 0) (2 * 1)
          + pix [1, 2, 3, 4, 5, 6] 3 (2 * 0) (min (2 * 1 + 1) (3 - 1))
          + pix [1, 2, 3, 4, 5, 6] 3 (min (2 * 0 + 1) (2 - 1)) (2 * 1)
          + pix [1, 2, 3, 4, 5, 6] 3 (min (2 * 0 + 1) (2 - 1))
              (min (2 * 1 + 1) (3 - 1))) 4 :=
  ⟨by decide, by decide,
    (scale_image_spec [1, 2, 3, 4, 5, 6] 3 2 (by decide) (by decide)).2.2.2 0 1
      (by decide) (by decide)⟩

/-! ## C4 — multiscale cascade feed-forward -/

/-- C4 (counterexample): with `scaled_frame[1]` holding `[0]` and a 2×2
all-twos frame arriving, level 2 receives the downsample of the *averaged*
frame `[1]`, not of the forwarded-per-the-claim `F_down = [2]`. -/
theorem write_multiscale_forwards_average_counterexample :
    ((write_multiscale_loop [1, 2] [2, 2, 2, 2] 2 2
        (fun j => if j = 1 then some [0] else none) []).1 2 = some [1]) ∧
    ((write_multiscale_loop [1, 2] [2, 2, 2, 2] 2 2
        (fun j => if j = 1 then some [0] else none) []).1 2
      ≠ some (scale_image (scale_image [2, 2, 2, 2] 2 2).1 1 1).1) := by
  constructor
  · decide
  · decide

/-- C4 (amended): when a frame arrives at level `i` whose slot holds `g`, the
orchestrator writes the pairwise average of `F_down` and `g` to writer `i`,
clears the slot, and feeds the *averaged* frame (not `F_down`: `average_two_frames`
overwrites `dst` in place before `data = dst`) forward to level `i + 1`, which
here stores its further downsample into its empty slot. -/
theorem write_multiscale_forwards_average (i : Nat) (rest2 : List Nat)
    (data g : List Int) (w h : Nat) (scaled : Nat → Option (List Int))
    (written : List (Nat × List Int)) (hsome : scaled i = some g)
    (hnext : scaled (i + 1) = none) :
    write_multiscale_loop (i :: (i + 1) :: rest2) data w h scaled written =
      (fun j =>
        if j = i + 1 then
          some (scale_image (average_two_frames (scale_image data w h).1 g)
            (scale_image data w h).2.1 (scale_image data w h).2.2).1
        else if j = i then none
        else scaled j,
       written ++ [(i, average_two_frames (scale_image data w h).1 g)]) := by
  simp only [write_multiscale_loop]
  rw [hsome]
  simp only [write_multiscale_loop]
  have hni : (if i + 1 = i then (none : Option (List Int)) else scaled (i + 1)) = none := by
    rw [if_neg (by omega), hnext]
  rw [hni]

theorem write_multiscale_forwards_average_witness :
    ((fun j => if j = 1 then some [0] else none) : Nat → Option (List Int)) 1
        = some [0] ∧
      write_multiscale_loop [1, 2] [2, 2, 2, 2] 2 2
          (fun j => if j = 1 then some [0] else none) [] =
        (fun j =>
          if j = 2 then
            some (scale_image
              (average_two_frames (scale_image [2, 2, 2, 2] 2 2).1 [0])
              (scale_image [2, 2, 2, 2] 2 2).2.1 (scale_image [2, 2, 2, 2] 2 2).2.2).1
          else if j = 1 then none
          else (fun j => if j = 1 then some [0] else none) j,
         [] ++ [(1, average_two_frames (scale_image [2, 2, 2, 2] 2 2).1 [0])]) :=
  ⟨rfl,
    write_multiscale_forwards_average 1 [] [2, 2, 2, 2] [0] 2 2
      (fun j => if j = 1 then some [0] else none) [] rfl rfl⟩

/-! ## C6 — custom metadata -/

/-- C6: with metadata already written, `overwrite = false` yields
`WillNotOverwrite` and writes nothing; `overwrite = true` succeeds and
replaces the stored content; and empty or unparsable input yields
`InvalidArgument` regardless of any prior state. -/
theorem write_custom_metadata_contract (parseOk : String → Bool)
    (dump : String → String) (st : MetadataSinks) (m c : String)
    (hw : st.acquireJson = some c) (hne : m.isEmpty = false) (hp : parseOk m = true) :
    write_custom_metadata parseOk dump st m false = (st, ZarrStatusCode.WillNotOverwrite) ∧
    write_custom_metadata parseOk dump st m true
      = ({ acquireJson := some (dump m) }, ZarrStatusCode.Success) ∧
    (∀ (st' : MetadataSinks) (ow : Bool) (m' : String),
      m'.isEmpty = true ∨ parseOk m' = false →
      write_custom_metadata parseOk dump st' m' ow
        = (st', ZarrStatusCode.InvalidArgument)) := by
  refine ⟨?_, ?_, ?_⟩
  · simp [write_custom_metadata, validate_custom_metadata, hne, hp, hw]
  · simp [write_custom_metadata, validate_custom_metadata, hne, hp, hw]
  · intro st' ow m' hbad
    rcases hbad with hbad | hbad <;>
      simp [write_custom_metadata, validate_custom_metadata, hbad]

theorem write_custom_metadata_contract_witness :
    (MetadataSinks.mk (some "old")).acquireJson = some "old" ∧
      write_custom_metadata (fun s => !s.isEmpty) (fun s => s)
          (MetadataSinks.mk (some "old")) "meta" false
        = (MetadataSinks.mk (some "old"), ZarrStatusCode.WillNotOverwrite) :=
  ⟨rfl,
    (write_custom_metadata_contract (fun s => !s.isEmpty) (fun s => s)
      (MetadataSinks.mk (some "old")) "meta" "old" rfl (by decide) (by decide)).1⟩

/-! ## C7 — OME multiscales shape -/

/-- C7: with writer levels `0..L` (`numWriters = L + 1` writers), the emitted
datasets list has exactly `numWriters` entries, every scale vector has `ndims`
entries, level 0 is all ones, and level `i ≥ 1` is
`[2^i, 1, …, 1, 2^i, 2^i]` with `ndims - 3` middle ones. -/
theorem ome_dataset_scales_shape (ndims numWriters : Nat) (hnd : 3 ≤ ndims)
    (hnw : 1 ≤ numWriters) :
    (ome_dataset_scales ndims numWriters).length = numWriters ∧
    (∀ v ∈ ome_dataset_scales ndims numWriters, v.length = ndims) ∧
    (ome_dataset_scales ndims numWriters).getD 0 [] = List.replicate ndims 1 ∧
    (∀ i, 1 ≤ i → i < numWriters →
      (ome_dataset_scales ndims numWriters).getD i []
        = 2 ^ i :: (List.replicate (ndims - 3) 1 ++ [2 ^ i, 2 ^ i])) := by
  refine ⟨?_, ?_, ?_, ?_⟩
  · simp [ome_dataset_scales]
    omega
  · intro v hv
    rcases List.mem_cons.mp hv with hv | hv
    · subst hv; simp
    · rcases List.mem_map.mp hv with ⟨j, _, hj⟩
      subst hj
      simp [ome_scale_vector]
      omega
  · simp [ome_dataset_scales, map_one_eq_replicate]
  · intro i hi1 hiw
    obtain ⟨j, hj⟩ : ∃ j, i = j + 1 := ⟨i - 1, by omega⟩
    subst hj
    show ((ome_dataset_scales ndims numWriters)).getD (j + 1) [] = _
    rw [ome_dataset_scales, List.getD_cons_succ,
      getD_map_range _ _ _ _ (by omega), ome_scale_vector, map_one_eq_replicate]

theorem ome_dataset_scales_shape_witness :
    3 ≤ 4 ∧ 1 ≤ 3 ∧
      (ome_dataset_scales 4 3).getD 2 []
        = 2 ^ 2 :: (List.replicate 1 1 ++ [2 ^ 2, 2 ^ 2]) :=
  ⟨by decide, by decide,
    (ome_dataset_scales_shape 4 3 (by decide) (by decide)).2.2.2 2 (by decide) (by decide)⟩

/-! ## C8 — chunk size vs extent -/

/-- C8 (counterexample): a settings struct whose y dimension has bounded
extent 4 px but chunk size 8 px passes `validate_settings_` — there is no
chunk-vs-extent check, so stream creation does not fail validation. -/
theorem validate_settings_ignores_chunk_vs_extent_counterexample :
    validate_settings (fun _ => true)
        { version := 2, store_path := "/acq", s3_settings := none,
          compression_settings := none, data_type := 0,
          dimensions := [⟨"t", 0, 0, 5, 1⟩, ⟨"y", 2, 4, 8, 1⟩, ⟨"x", 2, 4, 8, 1⟩],
          multiscale := false } = true ∧
      (0 : Nat) < 4 ∧ (4 : Nat) < 8 := by
  refine ⟨?_, by decide, by decide⟩
  decide

/-- C8 (amended): dimension validation never compares chunk size to extent: a
dimension with nonempty name, in-range type, nonzero extent, nonzero chunk
size and nonzero shard count passes `validate_dimension` for every version —
in particular when `chunk_size_px > array_size_px`. -/
theorem validate_dimension_ignores_chunk_vs_extent (d : ZarrDimensionProperties)
    (version : Nat) (is_append : Bool) (h1 : d.name.isEmpty = false)
    (h2 : d.type < ZarrDimensionTypeCount) (h3 : d.array_size_px ≠ 0)
    (h4 : d.chunk_size_px ≠ 0) (h5 : d.shard_size_chunks ≠ 0) :
    validate_dimension d version is_append = true := by
  simp [validate_dimension, h1, h3, h4, h5]
  omega

theorem validate_dimension_ignores_chunk_vs_extent_witness :
    (ZarrDimensionProperties.mk "y" 2 4 8 1).array_size_px <
        (ZarrDimensionProperties.mk "y" 2 4 8 1).chunk_size_px ∧
      validate_dimension (ZarrDimensionProperties.mk "y" 2 4 8 1) 3 false = true :=
  ⟨by decide,
    validate_dimension_ignores_chunk_vs_extent (ZarrDimensionProperties.mk "y" 2 4 8 1)
      3 false (by decide) (by decide) (by decide) (by decide) (by decide)⟩

/-! ## C9 — store creation destroys pre-existing data -/

/-- C9: on the filesystem branch, successful store creation removes the whole
subtree under a pre-existing store path and then creates a fresh directory
there: the call succeeds, the store path exists afterwards, and every strict
descendant of a pre-existing store path is gone. -/
theorem create_store_destroys_existing (fs : FileSystem) (sp p : String)
    (hex : fs_exists fs sp = true) (hunder : path_is_under sp p = true)
    (hne : p ≠ sp) :
    (create_store fs sp).2 = true ∧
    sp ∈ (create_store fs sp).1.entries ∧
    p ∉ (create_store fs sp).1.entries := by
  refine ⟨rfl, ?_, ?_⟩
  · simp [create_store, fs_create_directories]
  · simp only [create_store, fs_create_directories, hex, if_pos]
    intro hmem
    rcases List.mem_append.mp hmem with hmem | hmem
    · rw [fs_remove_all] at hmem
      have := List.of_mem_filter hmem
      simp [hunder] at this
    · simp at hmem
      exact hne hmem

theorem create_store_destroys_existing_witness :
    fs_exists ⟨["/acq", "/acq/old"]⟩ "/acq" = true ∧
      "/acq/old" ∉ (create_store ⟨["/acq", "/acq/old"]⟩ "/acq").1.entries :=
  ⟨by decide,
    (create_store_destroys_existing ⟨["/acq", "/acq/old"]⟩ "/acq" "/acq/old"
      (by decide) (by decide) (by decide)).2.2⟩

/-! ## C1/C2 — frame re-assembly helpers -/

theorem chunks_tail_small (fs : Nat) (l : List Nat) (h : l.length < fs) :
    chunks_tail fs l = ([], l) := by
  rw [chunks_tail, if_pos (Or.inr h)]

theorem chunks_tail_cons (fs : Nat) (c m : List Nat) (hfs : 0 < fs)
    (hc : c.length = fs) :
    chunks_tail fs (c ++ m) = (c :: (chunks_tail fs m).1, (chunks_tail fs m).2) := by
  rw [chunks_tail, if_neg (by simp [List.length_append]; omega)]
  have ht : (c ++ m).take fs = c := by rw [← hc]; exact List.take_left c m
  have hd : (c ++ m).drop fs = m := by rw [← hc]; exact List.drop_left c m
  rw [ht, hd]

theorem chunks_tail_rem_lt (fs : Nat) (l : List Nat) (hfs : 0 < fs) :
    (chunks_tail fs l).2.length < fs := by
  by_cases h : l.length < fs
  · rw [chunks_tail_small fs l h]
    exact h
  · rw [chunks_tail, if_neg (by omega)]
    exact chunks_tail_rem_lt fs (l.drop fs) hfs
termination_by l.length
decreasing_by
  simp only [List.length_drop]
  omega

theorem chunks_tail_append (fs : Nat) (hfs : 0 < fs) (l m : List Nat) :
    chunks_tail fs (l ++ m)
      = ((chunks_tail fs l).1 ++ (chunks_tail fs ((chunks_tail fs l).2 ++ m)).1,
         (chunks_tail fs ((chunks_tail fs l).2 ++ m)).2) := by
  by_cases h : l.length < fs
  · rw [chunks_tail_small fs l h]
    simp
  · have hdecomp : l = l.take fs ++ l.drop fs := (List.take_append_drop fs l).symm
    have htake : (l.take fs).length = fs := by rw [List.length_take]; omega
    have hl : chunks_tail fs l
        = (l.take fs :: (chunks_tail fs (l.drop fs)).1,
           (chunks_tail fs (l.drop fs)).2) := by
      conv_lhs => rw [hdecomp]
      exact chunks_tail_cons fs _ _ hfs htake
    have hlm : chunks_tail fs (l ++ m)
        = (l.take fs :: (chunks_tail fs (l.drop fs ++ m)).1,
           (chunks_tail fs (l.drop fs ++ m)).2) := by
      conv_lhs => rw [hdecomp, List.append_assoc]
      exact chunks_tail_cons fs _ _ hfs htake
    rw [hlm, hl, chunks_tail_append fs hfs (l.drop fs) m]
    simp [List.cons_append]
termination_by l.length
decreasing_by
  simp only [List.length_drop]
  omega

/-- Closed form of the `append` loop in an error-free run: the buffered bytes
followed by the input are greedily cut into complete frames (all delivered to
writer 0) plus a remainder left in the frame buffer, and the full input length
is consumed. -/
theorem append_loop_no_fail (fuel : Nat) (fs : Nat) (buf0 : List Nat)
    (frames0 : List (List Nat)) (att0 : Nat) (err0 : String) (input : List Nat)
    (hfs : 0 < fs) (hbuf : buf0.length < fs) (hfuel : input.length < fuel) :
    append_loop no_fail fuel (StreamState.mk fs buf0 frames0 att0 err0) input
      = (StreamState.mk fs (chunks_tail fs (buf0 ++ input)).2
          (frames0 ++ (chunks_tail fs (buf0 ++ input)).1)
          (att0 + (chunks_tail fs (buf0 ++ input)).1.length) err0,
         input.length) := by
  induction fuel generalizing buf0 frames0 att0 input with
  | zero => omega
  | succ fuel ih =>
    by_cases hin : input = []
    · subst hin
      simp [append_loop, chunks_tail_small fs buf0 hbuf]
    · have hil : 0 < input.length := List.length_pos.mpr hin
      by_cases hb0 : buf0 = []
      · subst hb0
        by_cases hsmall : input.length < fs
        · simp [append_loop, hin, hsmall, chunks_tail_small fs input hsmall]
        · have htake : (input.take fs).length = fs := by
            rw [List.length_take]; omega
          have hrec := ih [] (frames0 ++ [input.take fs]) (att0 + 1)
            (input.drop fs) (by simpa using hfs)
            (by simp only [List.length_drop]; omega)
          simp only [append_loop, if_neg hin, write_frame, no_fail, hsmall]
          simp only [ne_eq, not_true_eq_false, if_false, List.nil_append,
            Bool.false_eq_true, lt_irrefl, if_neg (by omega : ¬input.length < fs),
            if_neg (by omega : ¬fs < fs)]
          rw [hrec]
          conv_rhs => rw [(List.take_append_drop fs input).symm]
          rw [chunks_tail_cons fs _ _ hfs htake]
          simp only [List.nil_append, List.append_assoc, List.singleton_append,
            List.length_cons, List.length_drop, List.length_append,
            List.length_take, StreamState.mk.injEq, Prod.mk.injEq, true_and,
            and_true]
          omega
      · -- partial frame in the buffer
        have hbl : 0 < buf0.length := List.length_pos.mpr hb0
        by_cases hful : fs - buf0.length ≤ input.length
        · -- the input completes the buffered frame
          have hT : min (fs - buf0.length) input.length = fs - buf0.length :=
            min_eq_left hful
          have htlen : (input.take (fs - buf0.length)).length = fs - buf0.length := by
            rw [List.length_take]; omega
          have hblen : (buf0 ++ input.take (fs - buf0.length)).length = fs := by
            rw [List.length_append, htlen]; omega
          have hrec := ih [] (frames0 ++ [buf0 ++ input.take (fs - buf0.length)])
            (att0 + 1) (input.drop (fs - buf0.length)) (by simpa using hfs)
            (by simp only [List.length_drop]; omega)
          have hsplit : buf0 ++ input
              = (buf0 ++ input.take (fs - buf0.length))
                  ++ input.drop (fs - buf0.length) := by
            rw [List.append_assoc, List.take_append_drop]
          simp only [append_loop, if_neg hin, write_frame, no_fail]
          simp only [ne_eq, hb0, not_false_eq_true, if_true, if_pos, hT,
            if_neg (by omega : ¬fs - buf0.length = 0), hblen,
            if_pos (rfl : fs = fs), Bool.false_eq_true, if_false, lt_irrefl,
            if_neg (by omega : ¬fs < fs)]
          rw [hrec]
          rw [hsplit, chunks_tail_cons fs _ _ hfs hblen]
          simp only [List.nil_append, List.append_assoc, List.singleton_append,
            List.length_cons, List.length_drop, StreamState.mk.injEq,
            Prod.mk.injEq, true_and, and_true]
          omega
        · -- the input is absorbed into the buffer without completing a frame
          have hT : min (fs - buf0.length) input.length = input.length := by omega
          have htake : input.take input.length = input := List.take_length input
          have hrec := ih (buf0 ++ input) frames0 att0 []
            (by rw [List.length_append]; omega) (by simp; omega)
          simp only [append_loop, if_neg hin, write_frame, no_fail]
          simp only [ne_eq, hb0, not_false_eq_true, if_true, hT,
            if_neg (by omega : ¬input.length = 0), htake,
            if_neg (by rw [List.length_append]; omega :
              ¬(buf0 ++ input).length = fs)]
          simp only [List.append_nil, List.length_nil] at hrec
          rw [List.drop_length, hrec]
          simp [chunks_tail_small fs (buf0 ++ input)
            (by rw [List.length_append]; omega)]

theorem append_loop_nil (failAt : Nat → Bool) (fuel : Nat) (s : StreamState) :
    append_loop failAt fuel s [] = (s, 0) := by
  cases fuel with
  | zero => rfl
  | succ fuel => simp [append_loop]

/-- `append` on an error-free stream in closed form. -/
theorem append_no_fail_closed (fs : Nat) (buf0 : List Nat)
    (frames0 : List (List Nat)) (att0 : Nat) (input : List Nat) (hfs : 0 < fs)
    (hbuf : buf0.length < fs) :
    append no_fail (StreamState.mk fs buf0 frames0 att0 "") input
      = (StreamState.mk fs (chunks_tail fs (buf0 ++ input)).2
          (frames0 ++ (chunks_tail fs (buf0 ++ input)).1)
          (att0 + (chunks_tail fs (buf0 ++ input)).1.length) "",
         input.length) := by
  rw [append, if_neg (by simp)]
  by_cases hin : input.length = 0
  · rw [if_pos hin]
    have hnil : input = [] := List.length_eq_zero.mp hin
    subst hnil
    simp [chunks_tail_small fs buf0 hbuf]
  · rw [if_neg hin]
    exact append_loop_no_fail _ fs buf0 frames0 att0 "" input hfs hbuf (by omega)

theorem append_many_no_fail_closed (fs : Nat) (buf0 : List Nat)
    (frames0 : List (List Nat)) (att0 : Nat) (pieces : List (List Nat))
    (hfs : 0 < fs) (hbuf : buf0.length < fs) :
    append_many no_fail (StreamState.mk fs buf0 frames0 att0 "") pieces
      = (StreamState.mk fs (chunks_tail fs (buf0 ++ pieces.flatten)).2
          (frames0 ++ (chunks_tail fs (buf0 ++ pieces.flatten)).1)
          (att0 + (chunks_tail fs (buf0 ++ pieces.flatten)).1.length) "",
         pieces.flatten.length) := by
  induction pieces generalizing buf0 frames0 att0 with
  | nil => simp [append_many, chunks_tail_small fs buf0 hbuf]
  | cons x xs ih =>
    simp only [append_many]
    rw [append_no_fail_closed fs buf0 frames0 att0 x hfs hbuf]
    rw [ih (chunks_tail fs (buf0 ++ x)).2 _ _ (chunks_tail_rem_lt fs (buf0 ++ x) hfs)]
    have happ := chunks_tail_append fs hfs (buf0 ++ x) xs.flatten
    simp only [List.flatten_cons, ← List.append_assoc]
    rw [happ]
    simp only [List.append_assoc, List.length_append, StreamState.mk.injEq,
      Prod.mk.injEq, true_and, and_true]
    omega

/-! ## C1 — append split invariance -/

/-- C1: for every frame size and every way of splitting a byte sequence `X`
into consecutive pieces, appending the pieces one by one to a fresh stream
(with no errors occurring) consumes byte counts summing to `|X|` and leaves
the stream — in particular the frames delivered to writer 0 — exactly as a
single `append(X)` would. -/
theorem append_split_invariance (fs : Nat) (pieces : List (List Nat))
    (hfs : 0 < fs) :
    append_many no_fail (fresh_stream fs) pieces
      = ((append no_fail (fresh_stream fs) pieces.flatten).1, pieces.flatten.length) := by
  show append_many no_fail (StreamState.mk fs [] [] 0 "") pieces = _
  rw [append_many_no_fail_closed fs [] [] 0 pieces hfs (by simpa using hfs)]
  rw [show fresh_stream fs = StreamState.mk fs [] [] 0 "" from rfl]
  rw [append_no_fail_closed fs [] [] 0 pieces.flatten hfs (by simpa using hfs)]

theorem append_split_invariance_witness :
    0 < 2 ∧
      append_many no_fail (fresh_stream 2) [[1], [2, 3]]
        = ((append no_fail (fresh_stream 2) [[1], [2, 3]].flatten).1,
           ([[1], [2, 3]] : List (List Nat)).flatten.length) :=
  ⟨by decide, append_split_invariance 2 [[1], [2, 3]] (by decide)⟩

/-! ## C2 — error handling of `append` -/

theorem append_loop_total_of_no_error (failAt : Nat → Bool) (fuel : Nat)
    (fs : Nat) (buf0 : List Nat) (frames0 : List (List Nat)) (att0 : Nat)
    (err0 : String) (input : List Nat) (hfs : 0 < fs) (hbuf : buf0.length < fs)
    (hfuel : input.length < fuel)
    (hres : (append_loop failAt fuel (StreamState.mk fs buf0 frames0 att0 err0)
        input).1.error_ = "") :
    (append_loop failAt fuel (StreamState.mk fs buf0 frames0 att0 err0)
        input).2 = input.length := by
  induction fuel generalizing buf0 frames0 att0 err0 input with
  | zero => omega
  | succ fuel ih =>
    by_cases hin : input = []
    · subst hin
      simp [append_loop]
    · have hil : 0 < input.length := List.length_pos.mpr hin
      by_cases hb0 : buf0 = []
      · subst hb0
        by_cases hsmall : input.length < fs
        · simp [append_loop, hin, hsmall]
        · simp only [append_loop, if_neg hin, write_frame, ne_eq,
            not_true_eq_false, if_false, List.nil_append,
            if_neg (by omega : ¬input.length < fs)] at hres ⊢
          by_cases hfail : failAt att0 = true
          · rw [if_pos hfail] at hres ⊢
            rw [if_pos hfs] at hres ⊢
            simp at hres
          · rw [if_neg hfail] at hres ⊢
            rw [if_neg (by omega : ¬fs < fs)] at hres ⊢
            have := ih [] (frames0 ++ [input.take fs]) (att0 + 1) err0
              (input.drop fs) (by simpa using hfs)
              (by simp only [List.length_drop]; omega) hres
            simp only [this, List.length_drop]
            omega
      · by_cases hful : fs - buf0.length ≤ input.length
        · have hT : min (fs - buf0.length) input.length = fs - buf0.length :=
            min_eq_left hful
          have hblen : (buf0 ++ input.take (fs - buf0.length)).length = fs := by
            rw [List.length_append, List.length_take]
            omega
          simp only [append_loop, if_neg hin, write_frame, ne_eq, hb0,
            not_false_eq_true, if_true, hT,
            if_neg (by omega : ¬fs - buf0.length = 0), hblen,
            if_pos (rfl : fs = fs)] at hres ⊢
          by_cases hfail : failAt att0 = true
          · rw [if_pos hfail] at hres ⊢
            rw [if_pos hfs] at hres ⊢
            simp at hres
          · rw [if_neg hfail] at hres ⊢
            rw [if_neg (by omega : ¬fs < fs)] at hres ⊢
            have := ih [] (frames0 ++ [buf0 ++ input.take (fs - buf0.length)])
              (att0 + 1) err0 (input.drop (fs - buf0.length))
              (by simpa using hfs) (by simp only [List.length_drop]; omega) hres
            simp only [this, List.length_drop]
            omega
        · have hT : min (fs - buf0.length) input.length = input.length := by omega
          simp only [append_loop, if_neg hin, write_frame, ne_eq, hb0,
            not_false_eq_true, if_true, hT,
            if_neg (by omega : ¬input.length = 0), List.take_length,
            if_neg (by rw [List.length_append]; omega :
              ¬(buf0 ++ input).length = fs),
            List.drop_length, append_loop_nil] at hres ⊢
          omega

/-- C2 (amended): an errored stream rejects every further `append` with
return value 0 and no state change, and a short count is returned only when a
fatal internal error has latched: whenever the returned state carries no
error, the full input length was consumed. -/
theorem append_error_contract (failAt : Nat → Bool) (s : StreamState)
    (input : List Nat) (hfs : 0 < s.frameSize)
    (hbuf : s.buffer.length < s.frameSize) :
    (s.error_ ≠ "" → append failAt s input = (s, 0)) ∧
    ((append failAt s input).1.error_ = "" →
      (append failAt s input).2 = input.length) := by
  obtain ⟨fs, buf0, frames0, att0, err0⟩ := s
  simp only at hfs hbuf
  constructor
  · intro herr
    rw [append, if_pos herr]
  · intro hres
    by_cases herr : err0 ≠ ""
    · rw [append, if_pos herr] at hres
      exact absurd hres herr
    · by_cases hin : input.length = 0
      · rw [append, if_neg herr, if_pos hin]
        omega
      · rw [append, if_neg herr, if_neg hin] at hres ⊢
        exact append_loop_total_of_no_error failAt _ fs buf0 frames0 att0 err0
          input hfs hbuf (by omega) hres

theorem append_error_contract_witness :
    0 < (fresh_stream 2).frameSize ∧
      (fresh_stream 2).buffer.length < (fresh_stream 2).frameSize ∧
      ((append no_fail (fresh_stream 2) [7, 8]).1.error_ = "" →
        (append no_fail (fresh_stream 2) [7, 8]).2 = [7, 8].length) :=
  ⟨by decide, by decide,
    (append_error_contract no_fail (fresh_stream 2) [7, 8] (by decide)
      (by decide)).2⟩

/-- C2 (counterexample): the `append` call during which the fatal error
occurs can return the *full* requested count, not a short one: append one
byte to a stream whose frame buffer holds one of two frame bytes; the flush
of the completed frame fails (latching the error), yet the call returns 1 =
nbytes, because the byte had already been counted when it was copied into the
frame buffer. -/
theorem append_error_short_count_counterexample :
    ((append (fun _ => true) ((append no_fail (fresh_stream 2) [7]).1) [9]).2
        = 1) ∧
    (([9] : List Nat).length = 1) ∧
    ((append (fun _ => true) ((append no_fail (fresh_stream 2) [7]).1) [9]).1.error_
        ≠ "") := by
  refine ⟨by decide, by decide, by decide⟩

end AcquireZarr
